import Mathlib

/-!
Verification of the Windowed Edit Overlay Engine of the nmeditor repository.

The definitions below are a shallow embedding of the TypeScript source:
the main windowed App component (patch overlay, undo/redo stacks, window
manager) and the hooks `useSelection` / `useRowColumnOps`.

The JS patch overlay is a plain object keyed by the string `row:col`.
Since `row` and `col` are nonnegative integers, the key string is in
bijection with the pair `(row, col)`; we represent the overlay as an
association list over `Nat × Nat` keys whose write operation keeps keys
unique, i.e. as a finite map, which is exactly the object's semantics.
-/

/-- A patch key `(row, col)`, the JS string key `row:col`. -/
abbrev PatchKey := Nat × Nat

/-- The sparse patch overlay: JS `Record<string, string>`. -/
abbrev PatchMap := List (PatchKey × String)

/-- Object property read: `patches[key]`, `none` when the key is absent. -/
def lookupPatch (p : PatchMap) (k : PatchKey) : Option String :=
  match p with
  | [] => none
  | (k', v) :: rest => if k' = k then some v else lookupPatch rest k

/-- Object property write used by `applyPatchValue`:
`delete updated[key]` when the value is `none`, `updated[key] = value`
otherwise.  All occurrences of the key are removed, then the new binding
(if any) is appended; as a finite map this is exactly the JS semantics. -/
def patchWrite (p : PatchMap) (k : PatchKey) (v : Option String) : PatchMap :=
  match v with
  | none => p.filter (fun e => decide (e.1 ≠ k))
  | some s => p.filter (fun e => decide (e.1 ≠ k)) ++ [(k, s)]

/-- A cell-edit undo record: source type `PatchOp`.
`prev`/`next` are `string | null` in the source, `null` meaning
"absent from overlay". -/
structure PatchOp where
  key : PatchKey
  prev : Option String
  next : Option String
  deriving Repr, DecidableEq

/-- Source `RowOp` union from `useRowColumnOps`. -/
inductive RowOp where
  | insert (index : Nat) (values : List String)
  | delete (index : Nat)
  deriving Repr, DecidableEq

/-- Source `ColumnOp` union from `useRowColumnOps`. -/
inductive ColumnOp where
  | insert (index : Nat) (name : String)
  | delete (index : Nat)
  | rename (index : Nat) (name : String)
  deriving Repr, DecidableEq

/-- Source `CellPoint` from `useSelection`. -/
structure CellPoint where
  row : Nat
  col : Nat
  deriving Repr, DecidableEq

/-- Source `SelectionRange` from `useSelection`, fields in source order. -/
structure SelectionRange where
  startRow : Nat
  endRow : Nat
  startCol : Nat
  endCol : Nat
  deriving Repr, DecidableEq

/-- Source `SelectionMode`. -/
inductive SelectionMode where
  | cell
  | row
  | col
  deriving Repr, DecidableEq

/-- The state owned by the `useSelection` hook. -/
structure SelState where
  ranges : List SelectionRange
  anchor : Option CellPoint
  mode : SelectionMode
  dragging : Bool
  deriving Repr, DecidableEq

/-- Source `fileMode` union `"none" | "csv" | "text"`. -/
inductive FileMode where
  | nofile
  | csv
  | text
  deriving Repr, DecidableEq

/-- The cell being edited inline (source `editingCell`). -/
structure EditingCell where
  row : Nat
  col : Nat
  value : String
  deriving Repr, DecidableEq

/-- The window slice returned by the `read_csv_rows_window` backend command
(source field `end` renamed `endIdx`, a Lean keyword). -/
structure WindowSlice where
  rows : List (List String)
  start : Nat
  endIdx : Nat
  eof : Bool
  deriving Repr, DecidableEq

/-- The combined session state of the windowed App component together with
the `useRowColumnOps` and `useSelection` hook state it drives. -/
structure AppState where
  rows : List (List String)
  windowStart : Nat
  patches : PatchMap
  undoStack : List PatchOp
  redoStack : List PatchOp
  editingCell : Option EditingCell
  headers : List String
  rowOps : List RowOp
  columnOps : List ColumnOp
  sel : SelState
  eof : Bool
  windowLoading : Bool
  windowSize : Nat
  totalRows : Option Nat
  error : Option String
  deriving Repr, DecidableEq

/-- The empty selection state (`useSelection` initial values). -/
def emptySel : SelState :=
  { ranges := [], anchor := none, mode := .cell, dragging := false }

/-- A fresh session state (the component's initial `useState` values). -/
def emptyState : AppState :=
  { rows := [], windowStart := 0, patches := [], undoStack := [], redoStack := []
    editingCell := none, headers := [], rowOps := [], columnOps := []
    sel := emptySel, eof := false, windowLoading := false, windowSize := 400
    totalRows := none, error := none }

/-- Source `applyPatchValue`: raw overlay setter, `null` deletes the entry,
a string stores it; bypasses the base-value dedupe. -/
def applyPatchValue (key : PatchKey) (value : Option String) (s : AppState) : AppState :=
  { s with patches := patchWrite s.patches key value }

/-- Source `applyPatch` (the `set` operation).  `localRow` is
`row - windowStart`; the write is rejected unless `0 ≤ localRow < rows.length`.
`baseValue` is `rows[localRow]?.[col] ?? ""`.  Note that the recorded
`prev` field is the source ternary `hasPatch ? patches[key] : baseValue`:
it is always a string, never `null`. -/
def applyPatch (row col : Nat) (value : String) (s : AppState) : AppState :=
  if row < s.windowStart then s
  else if s.rows.length ≤ row - s.windowStart then s
  else
    let localRow := row - s.windowStart
    let key : PatchKey := (row, col)
    let baseValue := (s.rows.getD localRow []).getD col ""
    let currentValue := (lookupPatch s.patches key).getD baseValue
    if value = currentValue then s
    else
      let nextValue : Option String := if value = baseValue then none else some value
      { s with
        patches := patchWrite s.patches key nextValue
        undoStack := s.undoStack ++ [{ key := key, prev := some currentValue, next := nextValue }]
        redoStack := [] }

/-- Source `undo`: pop the top `PatchOp`, apply its `prev` through the raw
setter, push the op onto the redo stack. -/
def undo (s : AppState) : AppState :=
  match s.undoStack.getLast? with
  | none => s
  | some lastOp =>
    { s with
      patches := patchWrite s.patches lastOp.key lastOp.prev
      redoStack := s.redoStack ++ [lastOp]
      undoStack := s.undoStack.dropLast }

/-- Source `redo`: pop the top redo `PatchOp`, apply its `next` through the
raw setter, push the op back onto the undo stack. -/
def redo (s : AppState) : AppState :=
  match s.redoStack.getLast? with
  | none => s
  | some lastOp =>
    { s with
      patches := patchWrite s.patches lastOp.key lastOp.next
      undoStack := s.undoStack ++ [lastOp]
      redoStack := s.redoStack.dropLast }

/-- `undo()` iterated `n` times. -/
def undoN : Nat → AppState → AppState
  | 0, s => s
  | n + 1, s => undoN n (undo s)

/-- `redo()` iterated `n` times. -/
def redoN : Nat → AppState → AppState
  | 0, s => s
  | n + 1, s => redoN n (redo s)

/-- A sequence of `set(row, col, value)` calls applied left to right. -/
def applyEdits (edits : List (Nat × Nat × String)) (s : AppState) : AppState :=
  edits.foldl (fun s e => applyPatch e.1 e.2.1 e.2.2 s) s

/-- Source `resetTransientEdits`: clears both edit stacks and the inline
editor. -/
def resetTransientEdits (s : AppState) : AppState :=
  { s with undoStack := [], redoStack := [], editingCell := none }

/-- Source `dataColumnCount`: `max(headers.length, max over rows of row.length)`. -/
def dataColumnCount (s : AppState) : Nat :=
  max s.headers.length (s.rows.foldl (fun m r => max m r.length) 0)

/-- Source `shiftPatchesForRowInsert`: rebuild the overlay, remapping every
key with `row ≥ index` to `row + 1`. -/
def shiftPatchesForRowInsert (index : Nat) (p : PatchMap) : PatchMap :=
  p.foldl (fun acc e =>
    patchWrite acc (if index ≤ e.1.1 then e.1.1 + 1 else e.1.1, e.1.2) (some e.2)) []

/-- Source `shiftPatchesForRowDelete`: rebuild the overlay, dropping every
key with `row == index` and remapping `row > index` to `row - 1`. -/
def shiftPatchesForRowDelete (index : Nat) (p : PatchMap) : PatchMap :=
  p.foldl (fun acc e =>
    if e.1.1 = index then acc
    else patchWrite acc (if index < e.1.1 then e.1.1 - 1 else e.1.1, e.1.2) (some e.2)) []

/-- Source `shiftPatchesForColInsert`. -/
def shiftPatchesForColInsert (index : Nat) (p : PatchMap) : PatchMap :=
  p.foldl (fun acc e =>
    patchWrite acc (e.1.1, if index ≤ e.1.2 then e.1.2 + 1 else e.1.2) (some e.2)) []

/-- Source `shiftPatchesForColDelete`. -/
def shiftPatchesForColDelete (index : Nat) (p : PatchMap) : PatchMap :=
  p.foldl (fun acc e =>
    if e.1.2 = index then acc
    else patchWrite acc (e.1.1, if index < e.1.2 then e.1.2 - 1 else e.1.2) (some e.2)) []

/-- Source `normalizeRowValuesForOps`: walk `columnOps` from the most recent
op backwards, undoing each: a column `insert` removes the value at its index
(when in range), a column `delete` re-inserts a blank placeholder at its
index (appending when the index is past the end); `rename` has no branch. -/
def normalizeRowValuesForOps (columnOps : List ColumnOp) (values : List String) : List String :=
  columnOps.reverse.foldl (fun normalized op =>
    match op with
    | .insert i _ => if i < normalized.length then normalized.eraseIdx i else normalized
    | .delete i => if i ≤ normalized.length then normalized.insertIdx i "" else normalized ++ [""]
    | .rename _ _ => normalized) values

/-- Source `clearSelection` from `useSelection`. -/
def clearSelection (_s : SelState) : SelState :=
  { ranges := [], anchor := none, mode := .cell, dragging := false }

/-- Source `insertRowAt target values?`: builds the resident row
(`values?.[idx] ?? ""` per column), appends a `RowOp.insert` holding the
pristine-layout values, splices the row into the resident window
(`target > rows.length` leaves it unchanged), remaps patch keys, then
`resetTransientEdits()` and `clearSelection()`. -/
def insertRowAt (target : Nat) (values : Option (List String)) (s : AppState) : AppState :=
  let columnCount := dataColumnCount s
  let nextRow := (List.range columnCount).map (fun idx =>
    match values with
    | none => ""
    | some vs => vs.getD idx "")
  let opValues := normalizeRowValuesForOps s.columnOps nextRow
  let s :=
    { s with
      rowOps := s.rowOps ++ [.insert target opValues]
      rows := if s.rows.length < target then s.rows else s.rows.insertIdx target nextRow
      patches := shiftPatchesForRowInsert target s.patches }
  let s := resetTransientEdits s
  { s with sel := clearSelection s.sel }

/-- Source `deleteRow` after the target row index has been resolved
(from `rowIndexInput` or the active selection range): appends a
`RowOp.delete`, drops the resident row (`filter(idx !== target)`), remaps
patch keys, then `resetTransientEdits()` and `clearSelection()`. -/
def deleteRow (target : Nat) (s : AppState) : AppState :=
  let s :=
    { s with
      rowOps := s.rowOps ++ [.delete target]
      rows := if target < s.rows.length then s.rows.eraseIdx target else s.rows
      patches := shiftPatchesForRowDelete target s.patches }
  let s := resetTransientEdits s
  { s with sel := clearSelection s.sel }

/-- JS `array.splice(index, 0, x)`: inserts at `index`, appending when the
index is past the end. -/
def spliceInsert (l : List String) (index : Nat) (x : String) : List String :=
  if l.length < index then l ++ [x] else l.insertIdx index x

/-- Source `insertColumnAt`: appends a `ColumnOp.insert`, splices the name
into `headers` and a blank cell into every resident row, remaps patch keys. -/
def insertColumnAt (index : Nat) (name : String) (s : AppState) : AppState :=
  { s with
    columnOps := s.columnOps ++ [.insert index name]
    headers := spliceInsert s.headers index name
    rows := s.rows.map (fun r => spliceInsert r index "")
    patches := shiftPatchesForColInsert index s.patches }

/-- Source `insertColumn` after its index input has been parsed
(`parseColumnIndex`, allowEnd): clears the error, `insertColumnAt`, then
`resetTransientEdits()` and `clearSelection()`. -/
def insertColumn (index : Nat) (name : String) (s : AppState) : AppState :=
  let s := { s with error := none }
  let s := insertColumnAt index name s
  let s := resetTransientEdits s
  { s with sel := clearSelection s.sel }

/-- Source `deleteColumn` after its index input has been parsed: clears the
error, appends a `ColumnOp.delete`, removes the header and the cell at
`index` from every resident row, remaps patch keys, then
`resetTransientEdits()` and `clearSelection()`. -/
def deleteColumn (index : Nat) (s : AppState) : AppState :=
  let s :=
    { s with
      error := none
      columnOps := s.columnOps ++ [.delete index]
      headers := s.headers.eraseIdx index
      rows := s.rows.map (fun r => r.eraseIdx index)
      patches := shiftPatchesForColDelete index s.patches }
  let s := resetTransientEdits s
  { s with sel := clearSelection s.sel }

/-- Source `clamp` from `useSelection`: `Math.min(Math.max(value, min), max)`. -/
def clampN (value lo hi : Nat) : Nat :=
  min (max value lo) hi

/-- Source `normalizeRange`: orders each axis so start ≤ end. -/
def normalizeRange (r : SelectionRange) : SelectionRange :=
  { startRow := min r.startRow r.endRow
    endRow := max r.startRow r.endRow
    startCol := min r.startCol r.endCol
    endCol := max r.startCol r.endCol }

/-- Source `buildRange`: `null` when either count is zero; clamps both
points against the current counts; `row`/`col` modes snap the orthogonal
axis to the full span. -/
def buildRange (rowCount colCount : Nat) (anchor focus : CellPoint)
    (mode : SelectionMode) : Option SelectionRange :=
  if rowCount = 0 ∨ colCount = 0 then none
  else
    let startRow := clampN anchor.row 0 (rowCount - 1)
    let endRow := clampN focus.row 0 (rowCount - 1)
    let startCol := clampN anchor.col 0 (colCount - 1)
    let endCol := clampN focus.col 0 (colCount - 1)
    match mode with
    | .row => some (normalizeRange
        { startRow := startRow, endRow := endRow, startCol := 0, endCol := colCount - 1 })
    | .col => some (normalizeRange
        { startRow := 0, endRow := rowCount - 1, startCol := startCol, endCol := endCol })
    | .cell => some (normalizeRange
        { startRow := startRow, endRow := endRow, startCol := startCol, endCol := endCol })

/-- Source `updateSelection`: on `shift` the anchor is the stored one
(falling back to the point); `ctrl` appends a new range; `shift` replaces
the last range; a plain click replaces the whole list. -/
def updateSelection (rowCount colCount : Nat) (point : CellPoint)
    (mode : SelectionMode) (shift ctrl : Bool) (s : SelState) : SelState :=
  let anchor := if shift then s.anchor.getD point else point
  match buildRange rowCount colCount anchor point mode with
  | none => s
  | some range =>
    { s with
      mode := mode
      anchor := some anchor
      ranges :=
        if ctrl then s.ranges ++ [range]
        else if shift then
          (if s.ranges.isEmpty then [range] else s.ranges.dropLast ++ [range])
        else [range] }

/-- Source `estimateWindowSize`.  The JS float arithmetic
(`MEMORY_BUDGET_BYTES * 0.6`, the bytes-per-row average, `Math.floor` of
their quotient) is modelled by exact rational arithmetic:
`safeBytes = 2147483648 * 0.6 = 12884901888 / 10` and
`bytesPerRow = sum2 / n` with `sum2 = Σ 2 * cell.length`.  An empty sample
or a zero average (`!bytesPerRow`) leaves the size unchanged. -/
def estimateWindowSize (current : Nat) (sampleRows : List (List String)) : Nat :=
  if sampleRows.length = 0 then current
  else
    let sum2 := sampleRows.foldl (fun total r => total + r.foldl (fun acc c => acc + 2 * c.length) 0) 0
    if sum2 = 0 then current
    else
      let n := sampleRows.length
      let maxRows := max 50
        (if 128 * n ≤ sum2 then 12884901888 * n / (10 * sum2) else 12884901888 / 1280)
      min (max maxRows 200) 20000

/-- The success continuation of source `loadWindow`: the resolved response
is applied unconditionally — `setRows(slice.rows)`, `setWindowStart(slice.start)`,
`setEof(slice.eof)`, `estimateWindowSize(slice.rows)`, and (`finally`)
`setWindowLoading(false)`.  The request carries only `path`, `delimiter`,
`start` and `limit`; neither the request nor this continuation carries or
consults any session/generation token. -/
def applyLoadWindowSuccess (s : AppState) (slice : WindowSlice) : AppState :=
  { s with
    rows := slice.rows
    windowStart := slice.start
    eof := slice.eof
    windowSize := estimateWindowSize s.windowSize slice.rows
    windowLoading := false }

/-- Binary bit length with structural fuel (fuel ≥ bit length suffices). -/
def bitLenFuel : Nat → Nat → Nat
  | 0, _ => 0
  | fuel + 1, n => if n = 0 then 0 else bitLenFuel fuel (n / 2) + 1

/-- Binary bit length of a natural number below `2 ^ 128`. -/
def bitLen (n : Nat) : Nat := bitLenFuel 128 n

/-- `Math.floor(w * c)` for an integer `w` and a double constant
`c = m / 2 ^ e`: the exact product `w * m / 2 ^ e` is rounded to the
nearest IEEE double (53-bit significand, ties to even) — the product of
two doubles is correctly rounded — and the floor of that double is taken.
Exact for `w < 2 ^ 53`, which covers every reachable `windowSize`
(clamped to `[200, 20000]`). -/
def jsFloorMulPow (w m e : Nat) : Nat :=
  let bigN := w * m
  if bigN = 0 then 0
  else
    let l := bitLen bigN
    if l ≤ 53 then bigN / 2 ^ e
    else
      let k := l - 53
      let q := bigN / 2 ^ k
      let r := bigN % 2 ^ k
      let half := 2 ^ (k - 1)
      let q2 :=
        if half < r then q + 1
        else if r < half then q
        else if q % 2 = 0 then q else q + 1
      q2 * 2 ^ k / 2 ^ e

/-- JS `Math.floor(w * 0.7)`: the double nearest 0.7 is
`6305039478318694 / 2 ^ 53` (slightly below 0.7), so for example
`jsFloor07 700 = 489` while the exact `⌊700 · 7/10⌋` is 490. -/
def jsFloor07 (w : Nat) : Nat := jsFloorMulPow w 6305039478318694 53

/-- JS `Math.floor(w * 0.3)`: the double nearest 0.3 is
`5404319552844595 / 2 ^ 54` (slightly below 0.3). -/
def jsFloor03 (w : Nat) : Nat := jsFloorMulPow w 5404319552844595 54

/-- The scroll handler `rowVirtualizer.onChange`, returning the `start`
argument of the single `loadWindow` call it issues, if any.  `items` is the
list of visible virtualization indices (`first`/`last` are its ends).
`Math.floor(windowSize * 0.7)` and `Math.floor(windowSize * 0.3)` are the
IEEE-double computations `jsFloor07`/`jsFloor03`; JS `Math.max(x - y, 0)`
on integers is Nat subtraction. -/
def onChangeFetch (fileMode : FileMode) (hasSortFilter windowLoading : Bool)
    (items : List Nat) (totalRowCount windowSize windowStart loadedCount : Nat) : Option Nat :=
  if fileMode ≠ FileMode.csv then none
  else if hasSortFilter then none
  else if windowLoading then none
  else
    match items with
    | [] => none
    | x :: xs =>
      let first := x
      let lastIdx := (x :: xs).getLastD 0
      let maxStart := totalRowCount - windowSize
      -- forward: `last >= windowStart + rows.length - 20` over JS integers
      if windowStart + loadedCount ≤ lastIdx + 20 ∧ windowStart < maxStart then
        let nextStart := min (lastIdx - jsFloor07 windowSize) maxStart
        if nextStart ≠ windowStart then some nextStart else none
      -- backward: `first <= windowStart + 20 && windowStart > 0`
      else if first ≤ windowStart + 20 ∧ 0 < windowStart then
        let nextStart := min (first - jsFloor03 windowSize) maxStart
        if nextStart ≠ windowStart then some nextStart else none
      else none

/-! ### Finite-map lemmas for the overlay representation -/

theorem lookupPatch_append (l₁ l₂ : PatchMap) (k : PatchKey) :
    lookupPatch (l₁ ++ l₂) k =
      (match lookupPatch l₁ k with
       | some v => some v
       | none => lookupPatch l₂ k) := by
  induction l₁ with
  | nil => simp [lookupPatch]
  | cons e rest ih =>
    obtain ⟨k', v⟩ := e
    by_cases h : k' = k <;> simp [lookupPatch, h, ih]

theorem lookupPatch_filter_ne (p : PatchMap) (k k' : PatchKey) :
    lookupPatch (p.filter (fun e => decide (e.1 ≠ k))) k' =
      if k' = k then none else lookupPatch p k' := by
  induction p with
  | nil => simp [lookupPatch]
  | cons e rest ih =>
    obtain ⟨ke, ve⟩ := e
    by_cases h1 : ke = k
    · subst h1
      rw [List.filter_cons_of_neg (by simp)]
      rw [ih]
      by_cases h2 : k' = ke
      · simp [h2]
      · rw [if_neg h2, if_neg h2, lookupPatch, if_neg (fun hh => h2 hh.symm)]
    · rw [List.filter_cons_of_pos (by simp [h1])]
      by_cases h2 : ke = k'
      · rw [lookupPatch, if_pos h2, if_neg (fun hh : k' = k => h1 (h2.trans hh)),
          lookupPatch, if_pos h2]
      · rw [lookupPatch, if_neg h2, ih]
        by_cases h3 : k' = k
        · simp [h3]
        · rw [if_neg h3, if_neg h3, lookupPatch, if_neg h2]

theorem lookupPatch_patchWrite (p : PatchMap) (k : PatchKey) (v : Option String)
    (k' : PatchKey) :
    lookupPatch (patchWrite p k v) k' = if k' = k then v else lookupPatch p k' := by
  cases v with
  | none => simpa [patchWrite] using lookupPatch_filter_ne p k k'
  | some s =>
    rw [patchWrite, lookupPatch_append, lookupPatch_filter_ne]
    by_cases h : k' = k
    · simp [h, lookupPatch]
    · rw [if_neg h, if_neg h]
      cases hlk : lookupPatch p k' with
      | some v => simp
      | none => simp [lookupPatch, if_neg (fun hh : k = k' => h hh.symm)]

/-! ### Undo/redo round-trip machinery -/

/-- The keys touched by a list of `PatchOp`s. -/
def opKeys (ops : List PatchOp) : List PatchKey := ops.map (fun op => op.key)

/-- The net overlay effect of undoing `ops` from the most recent backwards. -/
def undoAllOps (ops : List PatchOp) (p : PatchMap) : PatchMap :=
  ops.foldr (fun op acc => patchWrite acc op.key op.prev) p

/-- The net overlay effect of redoing `ops` in chronological order. -/
def redoAllOps (ops : List PatchOp) (p : PatchMap) : PatchMap :=
  ops.foldl (fun acc op => patchWrite acc op.key op.next) p

/-- Consistency of an overlay with a produced op suffix: every op that is
the most recent one for its key has `next` equal to the overlay's current
value at that key. -/
def InvOps : PatchMap → List PatchOp → Prop
  | _, [] => True
  | p, op :: rest => (op.key ∈ opKeys rest ∨ lookupPatch p op.key = op.next) ∧ InvOps p rest

theorem invOps_append (p : PatchMap) (pre : List PatchOp) (op : PatchOp)
    (h : InvOps p pre) :
    InvOps (patchWrite p op.key op.next) (pre ++ [op]) := by
  induction pre with
  | nil => simp [InvOps, lookupPatch_patchWrite]
  | cons q rest ih =>
    obtain ⟨h1, h2⟩ := h
    refine ⟨?_, ih h2⟩
    have hkeys : opKeys (rest ++ [op]) = opKeys rest ++ [op.key] := by
      simp [opKeys]
    rcases h1 with h1 | h1
    · left
      show q.key ∈ opKeys (rest ++ [op])
      rw [hkeys]
      exact List.mem_append_left _ h1
    · by_cases hk : q.key = op.key
      · left
        show q.key ∈ opKeys (rest ++ [op])
        rw [hkeys]
        exact List.mem_append_right _ (by simp [hk])
      · right
        rw [lookupPatch_patchWrite]
        simpa [hk] using h1

theorem lookup_undoAllOps_not_mem (ops : List PatchOp) (p : PatchMap) (k : PatchKey)
    (h : k ∉ opKeys ops) :
    lookupPatch (undoAllOps ops p) k = lookupPatch p k := by
  induction ops with
  | nil => rfl
  | cons op rest ih =>
    have hk : k ≠ op.key ∧ k ∉ opKeys rest := by
      simpa [opKeys, not_or] using h
    show lookupPatch (patchWrite (undoAllOps rest p) op.key op.prev) k = _
    rw [lookupPatch_patchWrite]
    simp only [hk.1, if_false]
    exact ih hk.2

theorem redoAllOps_congr (ops : List PatchOp) : ∀ (q q' : PatchMap),
    (∀ k, k ∉ opKeys ops → lookupPatch q k = lookupPatch q' k) →
    ∀ k, lookupPatch (redoAllOps ops q) k = lookupPatch (redoAllOps ops q') k := by
  induction ops with
  | nil =>
    intro q q' h k
    exact h k (by simp [opKeys])
  | cons op rest ih =>
    intro q q' h k
    refine ih _ _ (fun k2 hk2 => ?_) k
    rw [lookupPatch_patchWrite, lookupPatch_patchWrite]
    by_cases he : k2 = op.key
    · simp [he]
    · simp only [he, if_false]
      refine h k2 ?_
      simp only [opKeys, List.map_cons, List.mem_cons, not_or]
      exact ⟨he, by simpa [opKeys] using hk2⟩

theorem redoAllOps_inv (ops : List PatchOp) : ∀ (p : PatchMap), InvOps p ops →
    ∀ k, lookupPatch (redoAllOps ops p) k = lookupPatch p k := by
  induction ops with
  | nil => intro p _ k; rfl
  | cons op rest ih =>
    intro p hinv k
    obtain ⟨h1, h2⟩ := hinv
    have step : ∀ k2, k2 ∉ opKeys rest →
        lookupPatch (patchWrite p op.key op.next) k2 = lookupPatch p k2 := by
      intro k2 hk2
      rw [lookupPatch_patchWrite]
      rcases h1 with hmem | heq
      · have : k2 ≠ op.key := fun hcontra => hk2 (hcontra ▸ hmem)
        simp [this]
      · by_cases he : k2 = op.key
        · simp [he, heq]
        · simp [he]
    calc lookupPatch (redoAllOps rest (patchWrite p op.key op.next)) k
        = lookupPatch (redoAllOps rest p) k := redoAllOps_congr rest _ _ step k
      _ = lookupPatch p k := ih p h2 k

theorem roundtrip_pointwise (ops : List PatchOp) (p : PatchMap) (h : InvOps p ops)
    (k : PatchKey) :
    lookupPatch (redoAllOps ops (undoAllOps ops p)) k = lookupPatch p k := by
  have h1 := redoAllOps_congr ops (undoAllOps ops p) p
    (fun k2 hk2 => lookup_undoAllOps_not_mem ops p k2 hk2) k
  rw [h1, redoAllOps_inv ops p h k]

theorem applyPatch_cases (row col : Nat) (value : String) (s : AppState) :
    applyPatch row col value s = s ∨
    ∃ (k : PatchKey) (nv : Option String) (pv : String),
      applyPatch row col value s =
        { s with
          patches := patchWrite s.patches k nv
          undoStack := s.undoStack ++ [{ key := k, prev := some pv, next := nv }]
          redoStack := [] } := by
  unfold applyPatch
  split
  · exact Or.inl rfl
  · split
    · exact Or.inl rfl
    · dsimp only
      split
      · exact Or.inl rfl
      · exact Or.inr ⟨(row, col), _, _, rfl⟩

theorem applyEdits_invOps (edits : List (Nat × Nat × String)) :
    ∀ (s : AppState) (base pre : List PatchOp),
      s.undoStack = base ++ pre → InvOps s.patches pre →
      ∃ post, (applyEdits edits s).undoStack = base ++ post ∧
        InvOps (applyEdits edits s).patches post := by
  induction edits with
  | nil =>
    intro s base pre h hinv
    exact ⟨pre, h, hinv⟩
  | cons e rest ih =>
    intro s base pre h hinv
    show ∃ post, (applyEdits rest (applyPatch e.1 e.2.1 e.2.2 s)).undoStack = base ++ post ∧
      InvOps (applyEdits rest (applyPatch e.1 e.2.1 e.2.2 s)).patches post
    rcases applyPatch_cases e.1 e.2.1 e.2.2 s with hcase | ⟨kk, nv, pv, hcase⟩
    · rw [hcase]
      exact ih _ base pre h hinv
    · rw [hcase]
      refine ih _ base (pre ++ [{ key := kk, prev := some pv, next := nv }]) ?_ ?_
      · simp [h, List.append_assoc]
      · exact invOps_append s.patches pre { key := kk, prev := some pv, next := nv } hinv

theorem undo_eq (s : AppState) (base : List PatchOp) (op : PatchOp)
    (h : s.undoStack = base ++ [op]) :
    undo s =
      { s with
        patches := patchWrite s.patches op.key op.prev
        redoStack := s.redoStack ++ [op]
        undoStack := base } := by
  unfold undo
  rw [h, List.getLast?_concat, List.dropLast_concat]

theorem redo_eq (s : AppState) (rs : List PatchOp) (op : PatchOp)
    (h : s.redoStack = rs ++ [op]) :
    redo s =
      { s with
        patches := patchWrite s.patches op.key op.next
        undoStack := s.undoStack ++ [op]
        redoStack := rs } := by
  unfold redo
  rw [h, List.getLast?_concat, List.dropLast_concat]

theorem undoN_spec (ops : List PatchOp) : ∀ (s : AppState) (base : List PatchOp),
    s.undoStack = base ++ ops →
    undoN ops.length s =
      { s with
        patches := undoAllOps ops s.patches
        undoStack := base
        redoStack := s.redoStack ++ ops.reverse } := by
  induction ops using List.reverseRecOn with
  | nil =>
    intro s base h
    simp only [List.append_nil] at h
    simp [undoN, undoAllOps, ← h]
  | append_singleton init op ih =>
    intro s base h
    have hu := undo_eq s (base ++ init) op (by rw [h, List.append_assoc])
    have hlen : (init ++ [op]).length = init.length + 1 := by simp
    rw [hlen]
    show undoN init.length (undo s) = _
    rw [hu, ih _ base (by simp)]
    congr 1
    · simp [undoAllOps, List.foldr_append]
    · simp [List.reverse_append]

theorem redoN_spec (ops : List PatchOp) : ∀ (s : AppState) (rs : List PatchOp),
    s.redoStack = rs ++ ops.reverse →
    redoN ops.length s =
      { s with
        patches := redoAllOps ops s.patches
        undoStack := s.undoStack ++ ops
        redoStack := rs } := by
  induction ops with
  | nil =>
    intro s rs h
    simp only [List.reverse_nil, List.append_nil] at h
    simp [redoN, redoAllOps, ← h]
  | cons op rest ih =>
    intro s rs h
    have hr := redo_eq s (rs ++ rest.reverse) op
      (by rw [h]; simp [List.append_assoc])
    have hlen : (op :: rest).length = rest.length + 1 := rfl
    rw [hlen]
    show redoN rest.length (redo s) = _
    rw [hr, ih _ rs (by simp)]
    congr 1
    simp

/-- C2: for every sequence of `set` (applyPatch) calls producing `n` new
undo-stack entries, `undo()` repeated `n` times followed by `redo()`
repeated `n` times restores an overlay whose key/value set is identical
to the overlay immediately after the edits. -/
theorem C2_undo_redo_roundtrip (s0 : AppState) (edits : List (Nat × Nat × String))
    (k : PatchKey) :
    lookupPatch (redoN ((applyEdits edits s0).undoStack.length - s0.undoStack.length)
      (undoN ((applyEdits edits s0).undoStack.length - s0.undoStack.length)
        (applyEdits edits s0))).patches k
      = lookupPatch (applyEdits edits s0).patches k := by
  obtain ⟨produced, hstack, hinv⟩ :=
    applyEdits_invOps edits s0 s0.undoStack [] (by simp) trivial
  have hn : (applyEdits edits s0).undoStack.length - s0.undoStack.length
      = produced.length := by
    rw [hstack]
    simp
  rw [hn, undoN_spec produced _ s0.undoStack hstack,
    redoN_spec produced _ (applyEdits edits s0).redoStack (by simp)]
  exact roundtrip_pointwise produced (applyEdits edits s0).patches hinv k

/-- The session state used to exercise the undo/absence behaviour: a
1×1 resident window whose base cell value is `"a"`, with an empty overlay. -/
def undoProbeState : AppState := { emptyState with rows := [["a"]] }

/-- C1 (code bug): editing a cell that had no overlay entry and then
calling `undo()` does NOT restore absence: because `applyPatch` records
`prev := hasPatch ? patches[key] : baseValue` (never `null`), `undo()`
re-creates the key bound to the base value.  Before the edit the key is
absent; after `applyPatch 0 0 "b"` and `undo()` it is present with the
base value `"a"`. -/
theorem C1_undo_leaves_overlay_entry :
    lookupPatch undoProbeState.patches (0, 0) = none ∧
    (applyPatch 0 0 "b" undoProbeState).undoStack =
      [{ key := (0, 0), prev := some "a", next := some "b" }] ∧
    lookupPatch (undo (applyPatch 0 0 "b" undoProbeState)).patches (0, 0) = some "a" := by
  refine ⟨rfl, ?_, ?_⟩ <;> decide

/-- The state refuting C4: the overlay already holds an entry equal to the
base value (a state reachable by `set` followed by `undo()`, see C1). -/
def staleBaseEntryState : AppState :=
  { emptyState with rows := [["a"]], patches := [((0, 0), "a")] }

/-- C4 counterexample: row 0 is resident, the written value `"a"` equals
the window's base value, yet `applyPatch` leaves the existing overlay
entry in place (the early `value === currentValue` return fires before the
tombstone branch), contradicting "any existing overlay entry for the key
is deleted". -/
theorem C4_counterexample :
    (staleBaseEntryState.rows.getD 0 []).getD 0 "" = "a" ∧
    staleBaseEntryState.windowStart = 0 ∧
    lookupPatch staleBaseEntryState.patches (0, 0) = some "a" ∧
    lookupPatch (applyPatch 0 0 "a" staleBaseEntryState).patches (0, 0) = some "a" := by
  refine ⟨rfl, rfl, rfl, ?_⟩
  decide

/-- C4 (amended): writing the base value to a resident cell leaves the
overlay without an entry for that key whenever the existing entry (if any)
differs from the base value — it is tombstoned if present and not created
if absent.  (When an entry already equal to the base value exists, a state
reachable only through `undo()`, the write returns early and the entry
survives; see the counterexample.) -/
theorem C4_set_base_removes_entry (s : AppState) (row col : Nat)
    (h1 : s.windowStart ≤ row)
    (h2 : row - s.windowStart < s.rows.length)
    (h3 : lookupPatch s.patches (row, col)
      ≠ some ((s.rows.getD (row - s.windowStart) []).getD col "")) :
    lookupPatch (applyPatch row col
      ((s.rows.getD (row - s.windowStart) []).getD col "") s).patches (row, col) = none := by
  unfold applyPatch
  rw [if_neg (by omega), if_neg (by omega)]
  dsimp only
  cases hlk : lookupPatch s.patches (row, col) with
  | none =>
    rw [if_pos (by simp)]
    exact hlk
  | some v =>
    have hv : v ≠ (s.rows.getD (row - s.windowStart) []).getD col "" := by
      intro hcontra
      exact h3 (by rw [hlk, hcontra])
    rw [if_neg (by rw [Option.getD_some]; exact fun hh => hv hh.symm)]
    rw [if_pos rfl]
    simp [lookupPatch_patchWrite]

/-- Witness for `C4_set_base_removes_entry` at a concrete state: overlay
entry `"x"`, base value `"a"`; writing `"a"` removes the entry. -/
def witnessC4State : AppState :=
  { emptyState with rows := [["a"]], patches := [((0, 0), "x")] }

theorem C4_set_base_removes_entry_witness :
    lookupPatch (applyPatch 0 0
      ((witnessC4State.rows.getD 0 []).getD 0 "") witnessC4State).patches (0, 0) = none :=
  C4_set_base_removes_entry witnessC4State 0 0 (by decide) (by decide) (by decide)

/-- C5: `set` (applyPatch) is a no-op — overlay, undo stack and redo stack
untouched, indeed the whole state unchanged — whenever the window-local
position `row - windowStart` is negative or not less than the resident row
count. -/
theorem C5_out_of_window_noop (s : AppState) (row col : Nat) (value : String)
    (h : (row : Int) - (s.windowStart : Int) < 0 ∨
      (s.rows.length : Int) ≤ (row : Int) - (s.windowStart : Int)) :
    applyPatch row col value s = s := by
  unfold applyPatch
  rcases h with h | h
  · rw [if_pos (by omega)]
  · by_cases h1 : row < s.windowStart
    · rw [if_pos h1]
    · rw [if_neg h1, if_pos (by omega)]

theorem C5_out_of_window_noop_witness :
    applyPatch 7 0 "zz" undoProbeState = undoProbeState :=
  C5_out_of_window_noop undoProbeState 7 0 "zz" (by decide)

theorem lookupPatch_eq_none_of_not_mem (p : PatchMap) (k : PatchKey)
    (h : k ∉ p.map Prod.fst) :
    lookupPatch p k = none := by
  induction p with
  | nil => rfl
  | cons e rest ih =>
    obtain ⟨ke, ve⟩ := e
    have hk : ke ≠ k ∧ k ∉ rest.map Prod.fst := by
      constructor
      · intro hcontra
        exact h (by simp [hcontra])
      · intro hcontra
        exact h (by simp [hcontra])
    rw [lookupPatch, if_neg hk.1]
    exact ih hk.2

theorem shiftRowDelete_lookup (i : Nat) : ∀ (p : PatchMap) (acc : PatchMap),
    (p.map Prod.fst).Nodup →
    ∀ r c, lookupPatch (p.foldl (fun acc e =>
        if e.1.1 = i then acc
        else patchWrite acc (if i < e.1.1 then e.1.1 - 1 else e.1.1, e.1.2) (some e.2)) acc)
        (r, c) =
      (match lookupPatch p (if r < i then (r, c) else (r + 1, c)) with
       | some v => some v
       | none => lookupPatch acc (r, c)) := by
  intro p
  induction p with
  | nil =>
    intro acc _ r c
    rfl
  | cons e rest ih =>
    intro acc hnd r c
    obtain ⟨⟨er, ec⟩, ev⟩ := e
    have hnd1 : ((er, ec) : PatchKey) ∉ rest.map Prod.fst :=
      (List.nodup_cons.mp (by simpa using hnd)).1
    have hnd2 : (rest.map Prod.fst).Nodup :=
      (List.nodup_cons.mp (by simpa using hnd)).2
    rw [List.foldl_cons]
    dsimp only
    by_cases her : er = i
    · rw [if_pos her, ih _ hnd2 r c]
      have hne : ((er, ec) : PatchKey) ≠ (if r < i then (r, c) else (r + 1, c)) := by
        by_cases hr : r < i
        · rw [if_pos hr, Ne, Prod.mk.injEq]
          omega
        · rw [if_neg hr, Ne, Prod.mk.injEq]
          omega
      rw [lookupPatch, if_neg hne]
    · rw [if_neg her, ih _ hnd2 r c]
      by_cases hsrc : ((er, ec) : PatchKey) = (if r < i then (r, c) else (r + 1, c))
      · have htgt : ((if i < er then er - 1 else er, ec) : PatchKey) = (r, c) := by
          by_cases hr : r < i
          · rw [if_pos hr, Prod.mk.injEq] at hsrc
            rw [if_neg (by omega), Prod.mk.injEq]
            exact ⟨hsrc.1, hsrc.2⟩
          · rw [if_neg hr, Prod.mk.injEq] at hsrc
            rw [if_pos (by omega), Prod.mk.injEq]
            exact ⟨by omega, hsrc.2⟩
        have hrest : lookupPatch rest (if r < i then (r, c) else (r + 1, c)) = none :=
          lookupPatch_eq_none_of_not_mem rest _ (hsrc ▸ hnd1)
        rw [hrest]
        simp only [lookupPatch, if_pos hsrc]
        rw [htgt, lookupPatch_patchWrite, if_pos rfl]
      · have hneq : ((r, c) : PatchKey) ≠ (if i < er then er - 1 else er, ec) := by
          intro hcontra
          rw [Prod.mk.injEq] at hcontra
          by_cases hi : i < er
          · rw [if_pos hi] at hcontra
            apply hsrc
            rw [if_neg (by omega), Prod.mk.injEq]
            exact ⟨by omega, hcontra.2.symm⟩
          · rw [if_neg hi] at hcontra
            apply hsrc
            rw [if_pos (by omega), Prod.mk.injEq]
            exact ⟨hcontra.1.symm, hcontra.2.symm⟩
        rw [lookupPatch_patchWrite, if_neg hneq]
        simp only [lookupPatch, if_neg hsrc]

/-- C3: after the row-delete remapping, the surviving overlay is the
pre-delete overlay with row `i` dropped and every higher row decremented:
looking up `(r, c)` in the result returns the pre-delete entry at `(r, c)`
when `r < i` and the pre-delete entry at `(r + 1, c)` otherwise.  In
particular no pre-existing entry at row `i` survives, rows `> i` appear
decremented by one, rows `< i` are untouched, and the surviving entries
are in value-preserving bijection with the pre-delete entries minus
row `i`. -/
theorem C3_row_delete_remap (p : PatchMap) (i : Nat)
    (hnd : (p.map Prod.fst).Nodup) (r c : Nat) :
    lookupPatch (shiftPatchesForRowDelete i p) (r, c) =
      if r < i then lookupPatch p (r, c) else lookupPatch p (r + 1, c) := by
  unfold shiftPatchesForRowDelete
  rw [shiftRowDelete_lookup i p [] hnd r c]
  by_cases hr : r < i
  · rw [if_pos hr, if_pos hr]
    cases lookupPatch p (r, c) <;> rfl
  · rw [if_neg hr, if_neg hr]
    cases lookupPatch p (r + 1, c) <;> rfl

/-- A concrete overlay for the C3 witness: entries at rows 0, 1 and 2. -/
def c3WitnessMap : PatchMap := [((0, 0), "p"), ((1, 0), "q"), ((2, 1), "r")]

theorem C3_row_delete_remap_witness :
    lookupPatch (shiftPatchesForRowDelete 1 c3WitnessMap) (1, 1) =
      if (1 : Nat) < 1 then lookupPatch c3WitnessMap (1, 1)
      else lookupPatch c3WitnessMap (2, 1) :=
  C3_row_delete_remap c3WitnessMap 1 (by decide) 1 1

/-- C6: `normalizeRowValuesForOps` walks the columnOps log in reverse
chronological order, undoing the most recent op first: appending a column
`insert i` to the log makes normalization first remove the value at `i`
(when one exists there), appending `delete i` makes it first re-insert a
blank placeholder at `i`, and appending a `rename` leaves the values
unchanged — in every case the remaining (older) log is then undone against
the result. -/
theorem C6_normalize_reverse_undo (ops : List ColumnOp) (v : List String)
    (i : Nat) (name : String) :
    (i < v.length →
      normalizeRowValuesForOps (ops ++ [.insert i name]) v
        = normalizeRowValuesForOps ops (v.eraseIdx i)) ∧
    (i ≤ v.length →
      normalizeRowValuesForOps (ops ++ [.delete i]) v
        = normalizeRowValuesForOps ops (v.insertIdx i "")) ∧
    (normalizeRowValuesForOps (ops ++ [.rename i name]) v
        = normalizeRowValuesForOps ops v) := by
  refine ⟨fun h => ?_, fun h => ?_, ?_⟩
  · simp [normalizeRowValuesForOps, List.reverse_append, h]
  · simp [normalizeRowValuesForOps, List.reverse_append, h]
  · simp [normalizeRowValuesForOps, List.reverse_append]

theorem C6_normalize_reverse_undo_witness :
    (normalizeRowValuesForOps [ColumnOp.delete 0, ColumnOp.insert 1 "n"] ["a", "b", "c"]
        = normalizeRowValuesForOps [ColumnOp.delete 0] (["a", "b", "c"].eraseIdx 1)) ∧
    (normalizeRowValuesForOps [ColumnOp.delete 0, ColumnOp.delete 2] ["a", "b", "c"]
        = normalizeRowValuesForOps [ColumnOp.delete 0] (["a", "b", "c"].insertIdx 2 "")) ∧
    (normalizeRowValuesForOps [ColumnOp.delete 0, ColumnOp.rename 1 "m"] ["a", "b", "c"]
        = normalizeRowValuesForOps [ColumnOp.delete 0] ["a", "b", "c"]) :=
  ⟨(C6_normalize_reverse_undo [ColumnOp.delete 0] ["a", "b", "c"] 1 "n").1 (by decide),
   (C6_normalize_reverse_undo [ColumnOp.delete 0] ["a", "b", "c"] 2 "n").2.1 (by decide),
   (C6_normalize_reverse_undo [ColumnOp.delete 0] ["a", "b", "c"] 1 "m").2.2⟩

/-- C10: each of the four structural operations — row insert, row delete,
column insert, column delete — ends with `resetTransientEdits()`, so after
any of them both the cell-edit undo stack and the redo stack are empty. -/
theorem C10_structural_ops_clear_history (s : AppState) (target index : Nat)
    (values : Option (List String)) (name : String) :
    ((insertRowAt target values s).undoStack = [] ∧
      (insertRowAt target values s).redoStack = []) ∧
    ((deleteRow target s).undoStack = [] ∧ (deleteRow target s).redoStack = []) ∧
    ((insertColumn index name s).undoStack = [] ∧
      (insertColumn index name s).redoStack = []) ∧
    ((deleteColumn index s).undoStack = [] ∧ (deleteColumn index s).redoStack = []) := by
  refine ⟨⟨rfl, rfl⟩, ⟨rfl, rfl⟩, ⟨rfl, rfl⟩, ⟨rfl, rfl⟩⟩

/-- The newer session's state in the stale-response scenario: file B has
been opened and its first window (a single row `["b0"]`) is resident. -/
def newerSessionState : AppState :=
  { emptyState with rows := [["b0"]], windowStart := 0, eof := true }

/-- The slow response belonging to the previously opened file A, resolving
after file B's session replaced it. -/
def staleSliceA : WindowSlice :=
  { rows := [["a0"], ["a1"]], start := 5, endIdx := 7, eof := false }

/-- C7 (code bug): `loadWindow`'s completion applies the response
unconditionally — there is no generation token on the request and no
staleness check on completion — so a response that resolves after its
session was superseded overwrites the newer session's rows, window start
and eof flag.  The first three conjuncts show the overwrite is
unconditional for every state and slice; the remaining ones evaluate the
concrete stale scenario, where file B's resident data is replaced by file
A's stale slice. -/
theorem C7_stale_response_overwrites :
    (∀ (s : AppState) (slice : WindowSlice),
      (applyLoadWindowSuccess s slice).rows = slice.rows ∧
      (applyLoadWindowSuccess s slice).windowStart = slice.start ∧
      (applyLoadWindowSuccess s slice).eof = slice.eof) ∧
    (applyLoadWindowSuccess newerSessionState staleSliceA).rows = [["a0"], ["a1"]] ∧
    (applyLoadWindowSuccess newerSessionState staleSliceA).windowStart = 5 ∧
    (applyLoadWindowSuccess newerSessionState staleSliceA).eof = false ∧
    (applyLoadWindowSuccess newerSessionState staleSliceA).rows ≠ newerSessionState.rows := by
  refine ⟨fun s slice => ⟨rfl, rfl, rfl⟩, rfl, rfl, rfl, ?_⟩
  decide

/-- C8 counterexample: all the stated trigger conditions hold (csv mode,
no sort/filter, no fetch in flight, `last ≥ windowStart + loadedCount − 20`,
`windowStart < maxStart`), yet no fetch is issued, because
`clamp(last − floor(windowSize·0.7), 0, maxStart)` equals the current
`windowStart` and the handler's `nextStart !== windowStart` guard
suppresses the call.  Here the window size has adapted to 2000 while only
400 rows are resident. -/
theorem C8_counterexample :
    (0 + 400 ≤ 395 + 20 ∧ 0 < 10000 - 2000) ∧
    jsFloor07 2000 = 1400 ∧
    min (395 - jsFloor07 2000) (10000 - 2000) = 0 ∧
    onChangeFetch .csv false false [395] 10000 2000 0 400 = none := by
  exact ⟨by decide, by decide, by decide, by decide⟩

/-- C8 (amended): whenever the forward-scroll trigger condition holds
(csv mode, no sort/filter rule, no fetch in flight, visible items
non-empty, `last ≥ windowStart + loadedCount − 20` and
`windowStart < maxStart`) and the clamped target
`clamp(last − floor(windowSize·0.7), 0, maxStart)` differs from the
current `windowStart`, exactly one fetch is issued, at that target
(when the target equals `windowStart` the handler issues nothing).
`floor(windowSize·0.7)` is the IEEE-double computation `jsFloor07`
actually performed by the code.  In the spec's concrete scenario —
`totalRowCount = 10000`, `windowSize = 400`, `windowStart = 0`, last
visible index 395 — `jsFloor07 400 = 280` and one fetch is issued at
`nextStart = 115`, with `0 < 115 ≤ maxStart = 9600`. -/
theorem C8_forward_prefetch :
    (∀ (x : Nat) (xs : List Nat) (total wsize wstart loaded : Nat),
      wstart + loaded ≤ (x :: xs).getLastD 0 + 20 →
      wstart < total - wsize →
      min ((x :: xs).getLastD 0 - jsFloor07 wsize) (total - wsize) ≠ wstart →
      onChangeFetch .csv false false (x :: xs) total wsize wstart loaded
        = some (min ((x :: xs).getLastD 0 - jsFloor07 wsize) (total - wsize))) ∧
    jsFloor07 400 = 280 ∧
    onChangeFetch .csv false false [395] 10000 400 0 400 = some 115 ∧
    0 < 115 ∧ 115 ≤ 10000 - 400 := by
  refine ⟨?_, by decide, by decide, by decide, by decide⟩
  intro x xs total wsize wstart loaded h1 h2 h3
  unfold onChangeFetch
  rw [if_neg (by decide), if_neg (by decide), if_neg (by decide)]
  dsimp only
  rw [if_pos ⟨h1, h2⟩, if_pos h3]

theorem C8_forward_prefetch_witness :
    onChangeFetch .csv false false [445] 10000 400 50 400 = some 165 :=
  C8_forward_prefetch.1 445 [] 10000 400 50 400 (by decide) (by decide) (by decide)

/-- C9: the spec's selection scenario.  Starting from the empty selection,
a plain click at (0,0), a ctrl-click at (2,2) and a shift-click at (3,3)
yield two ranges: the untouched singleton at (0,0) and the last range
extended from its stored anchor (2,2) to (3,3); only the last range is
replaced by the shift step. -/
theorem C9_selection_scenario (rc cc : Nat) (h1 : 4 ≤ rc) (h2 : 4 ≤ cc) :
    (updateSelection rc cc ⟨3, 3⟩ .cell true false
      (updateSelection rc cc ⟨2, 2⟩ .cell false true
        (updateSelection rc cc ⟨0, 0⟩ .cell false false emptySel))).ranges
      = [{ startRow := 0, endRow := 0, startCol := 0, endCol := 0 },
         { startRow := 2, endRow := 3, startCol := 2, endCol := 3 }] := by
  have hb1 : buildRange rc cc ⟨0, 0⟩ ⟨0, 0⟩ .cell =
      some { startRow := 0, endRow := 0, startCol := 0, endCol := 0 } := by
    rw [buildRange, if_neg (by omega)]
    simp only [clampN, normalizeRange]
    simp only [Option.some.injEq, SelectionRange.mk.injEq]
    omega
  have hb2 : buildRange rc cc ⟨2, 2⟩ ⟨2, 2⟩ .cell =
      some { startRow := 2, endRow := 2, startCol := 2, endCol := 2 } := by
    rw [buildRange, if_neg (by omega)]
    simp only [clampN, normalizeRange]
    simp only [Option.some.injEq, SelectionRange.mk.injEq]
    omega
  have hb3 : buildRange rc cc ⟨2, 2⟩ ⟨3, 3⟩ .cell =
      some { startRow := 2, endRow := 3, startCol := 2, endCol := 3 } := by
    rw [buildRange, if_neg (by omega)]
    simp only [clampN, normalizeRange]
    simp only [Option.some.injEq, SelectionRange.mk.injEq]
    omega
  have s1 : updateSelection rc cc ⟨0, 0⟩ .cell false false emptySel =
      { ranges := [{ startRow := 0, endRow := 0, startCol := 0, endCol := 0 }]
        anchor := some ⟨0, 0⟩, mode := .cell, dragging := false } := by
    simp [updateSelection, emptySel, hb1]
  have s2 : updateSelection rc cc ⟨2, 2⟩ .cell false true
      (updateSelection rc cc ⟨0, 0⟩ .cell false false emptySel) =
      { ranges := [{ startRow := 0, endRow := 0, startCol := 0, endCol := 0 },
                   { startRow := 2, endRow := 2, startCol := 2, endCol := 2 }]
        anchor := some ⟨2, 2⟩, mode := .cell, dragging := false } := by
    rw [s1]
    simp [updateSelection, hb2]
  rw [s2]
  simp [updateSelection, hb3]

theorem C9_selection_scenario_witness :
    (updateSelection 4 4 ⟨3, 3⟩ .cell true false
      (updateSelection 4 4 ⟨2, 2⟩ .cell false true
        (updateSelection 4 4 ⟨0, 0⟩ .cell false false emptySel))).ranges
      = [{ startRow := 0, endRow := 0, startCol := 0, endCol := 0 },
         { startRow := 2, endRow := 3, startCol := 2, endCol := 3 }] :=
  C9_selection_scenario 4 4 (by decide) (by decide)
